import Mathlib

/-!
Verification of the WhatsApp CLI daemon/IPC core.

Shallow embedding of the daemon request handler, its authentication,
the newline-delimited RPC codec, the state-store read/write pair, the
client connection strategy and the client-side date revival, translated
from `src/source/commands/index.tsx`, `src/source/utils/connect.ts` and
the IPC / UI-helper modules.
-/

namespace WhatsappCli

/-! ### JSON values

JSON values as produced by the platform JSON decoder: the state file and
the wire protocol both carry plain JSON. -/

inductive JVal where
  | null : JVal
  | bool (b : Bool) : JVal
  | num (n : Int) : JVal
  | str (s : String) : JVal
  | arr (xs : List JVal) : JVal
  | obj (kvs : List (String × JVal)) : JVal

/-! ### Constant-time token comparison

The source wrapper guards on JS string `.length` (UTF-16 code units), then
builds UTF-8 buffers with `Buffer.from` and calls `crypto.timingSafeEqual`.
The Node primitive throws a `RangeError` when the two buffers differ in
byte length — which can happen past the guard, since a string's UTF-16
unit count and its UTF-8 byte count differ on non-ASCII text — and
otherwise performs a constant-time byte-wise comparison visiting every
position.  The model keeps all three outcomes: guard exit, throw, and
byte-wise compare. -/

/-- UTF-16 code units of one character, what JS `String.length` counts:
one unit below `0x10000`, a surrogate pair above. -/
def utf16Units (c : Char) : Nat :=
  if c.toNat < 0x10000 then 1 else 2

def jsLenChars : List Char → Nat
  | [] => 0
  | c :: l => utf16Units c + jsLenChars l

/-- JS `String.length` of a string: its UTF-16 code-unit count. -/
def jsLength (s : String) : Nat := jsLenChars s.data

/-- The UTF-8 bytes of one character, as `Buffer.from(s)` produces them
(the standard one- to four-byte encoding, written arithmetically). -/
def utf8Encode (c : Char) : List Nat :=
  if c.toNat < 0x80 then [c.toNat]
  else if c.toNat < 0x800 then [0xC0 + c.toNat / 0x40, 0x80 + c.toNat % 0x40]
  else if c.toNat < 0x10000 then
    [0xE0 + c.toNat / 0x1000, 0x80 + c.toNat / 0x40 % 0x40, 0x80 + c.toNat % 0x40]
  else
    [0xF0 + c.toNat / 0x40000, 0x80 + c.toNat / 0x1000 % 0x40,
      0x80 + c.toNat / 0x40 % 0x40, 0x80 + c.toNat % 0x40]

def strUtf8Chars : List Char → List Nat
  | [] => []
  | c :: l => utf8Encode c ++ strUtf8Chars l

/-- The UTF-8 byte sequence of a string: the contents of `Buffer.from(s)`. -/
def strUtf8 (s : String) : List Nat := strUtf8Chars s.data

/-- The byte-wise core of `crypto.timingSafeEqual` over two equal-length
buffers: a fold that combines every byte pair into the result and counts
one cost unit per position — it never stops early, which is the
constant-time contract of the primitive. -/
def cryptoTimingSafeEqual : List Nat → List Nat → Bool × Nat
  | [], [] => (true, 0)
  | x :: xs, y :: ys =>
    let r := cryptoTimingSafeEqual xs ys
    ((x == y) && r.1, r.2 + 1)
  | _, _ => (false, 0)

/-- `String(err)` of the error `crypto.timingSafeEqual` throws on buffers
of different byte length. -/
def rangeErrorMsg : String := "RangeError: Input buffers must have the same byte length"

/-- Embeds `timingSafeEqual` from `src/source/commands/index.tsx` lines
112-117: the UTF-16 length guard returns false; then the primitive runs
on the UTF-8 buffers — throwing (`.error`) when their byte lengths
differ, else comparing byte-wise in constant time. -/
def timingSafeEqual (a b : String) : Except String Bool :=
  if jsLength a ≠ jsLength b then .ok false
  else if (strUtf8 a).length ≠ (strUtf8 b).length then .error rangeErrorMsg
  else .ok (cryptoTimingSafeEqual (strUtf8 a) (strUtf8 b)).1

/-- The running time of `timingSafeEqual`: one unit for the length guard;
past it, one unit for the primitive's byte-length check (after which it
throws), and — only when the byte lengths agree — one unit per byte
position compared. -/
def timingSafeEqualCost (a b : String) : Nat :=
  if jsLength a ≠ jsLength b then 1
  else if (strUtf8 a).length ≠ (strUtf8 b).length then 2
  else 2 + (cryptoTimingSafeEqual (strUtf8 a) (strUtf8 b)).2

/-! ### RPC data model (index.tsx lines 120-121) -/

/-- The parameter fields the daemon's dispatcher reads out of `params`
(`p[...]` accesses in index.tsx lines 147-190); an absent field is `none`,
matching an absent property on the JS record. -/
structure RpcParams where
  query : Option String
  name : Option String
  chatId : Option String
  limit : Option Nat
  text : Option String
  filePath : Option String
  caption : Option String
  messageId : Option String
deriving DecidableEq

def emptyParams : RpcParams :=
  ⟨none, none, none, none, none, none, none, none⟩

/-- `RpcRequest` (index.tsx line 120): `token` is optional on the wire. -/
structure RpcRequest where
  id : String
  method : String
  params : RpcParams
  token : Option String
deriving DecidableEq

/-- `RpcResponse` (index.tsx line 121). -/
structure RpcResponse where
  id : String
  result : Option JVal
  error : Option String

/-- The operations of the shared Session (WhatsAppClient) that the
dispatcher can invoke, with the arguments it passes. -/
inductive SessionOp where
  | getStatus : SessionOp
  | getThreads : SessionOp
  | searchThreads (query : String) : SessionOp
  | findChatByName (name : Option String) : SessionOp
  | getMessages (chatId : Option String) (limit : Option Nat) : SessionOp
  | sendMessage (chatId : Option String) (text : Option String) : SessionOp
  | sendFile (chatId : Option String) (filePath : Option String) (caption : String) : SessionOp
  | replyToMessage (messageId : Option String) (text : Option String) : SessionOp
deriving DecidableEq

/-- Observable side effects of the daemon: Session operations invoked by
the dispatcher, the `setImmediate` scheduling of shutdown performed by the
`stop` branch, and the four actions of the `shutdown` function itself. -/
inductive Effect where
  | session (op : SessionOp) : Effect
  | scheduleShutdown : Effect
  | closeServer : Effect
  | destroyClient : Effect
  | removeStateFile : Effect
  | exitProcess : Effect
deriving DecidableEq

/-- The Session as an oracle: each operation either returns a JSON-encodable
value or throws an error message (the `catch` in the handler converts a
throw into an error response).  `findChatByName` may also return
`undefined`, modelled as `.ok none`. -/
structure ClientOracle where
  status : JVal
  getThreads : Except String JVal
  searchThreads : String → Except String JVal
  findChatByName : Option String → Except String (Option JVal)
  getMessages : Option String → Option Nat → Except String JVal
  sendMessage : Option String → Option String → Except String Unit
  sendFile : Option String → Option String → String → Except String Unit
  replyToMessage : Option String → Option String → Except String Unit

/-- An oracle whose every operation succeeds with `null`; used to
instantiate theorems at concrete inputs. -/
def trivOracle : ClientOracle where
  status := .null
  getThreads := .ok .null
  searchThreads := fun _ => .ok .null
  findChatByName := fun _ => .ok none
  getMessages := fun _ _ => .ok .null
  sendMessage := fun _ _ => .ok ()
  sendFile := fun _ _ _ => .ok ()
  replyToMessage := fun _ _ => .ok ()

/-- The authenticated part of `handleRequest` (index.tsx lines 139-202):
the `switch` over the method, every branch echoing the request id, with
Session operations and the `stop` branch's `setImmediate` scheduling
recorded as effects. -/
def dispatchMethod (client : ClientOracle) (rid : String) (method : String)
    (p : RpcParams) : RpcResponse × List Effect :=
  match method with
  | "ping" => (⟨rid, some (.str "pong"), none⟩, [])
  | "getStatus" =>
    (⟨rid, some client.status, none⟩, [.session .getStatus])
  | "getThreads" =>
    match client.getThreads with
    | .ok v => (⟨rid, some v, none⟩, [.session .getThreads])
    | .error e => (⟨rid, none, some e⟩, [.session .getThreads])
  | "searchThreads" =>
    let q := p.query.getD ""
    match client.searchThreads q with
    | .ok v => (⟨rid, some v, none⟩, [.session (.searchThreads q)])
    | .error e => (⟨rid, none, some e⟩, [.session (.searchThreads q)])
  | "findChatByName" =>
    match client.findChatByName p.name with
    | .ok v =>
      (⟨rid, some (v.getD .null), none⟩, [.session (.findChatByName p.name)])
    | .error e => (⟨rid, none, some e⟩, [.session (.findChatByName p.name)])
  | "getMessages" =>
    match client.getMessages p.chatId p.limit with
    | .ok v => (⟨rid, some v, none⟩, [.session (.getMessages p.chatId p.limit)])
    | .error e => (⟨rid, none, some e⟩, [.session (.getMessages p.chatId p.limit)])
  | "sendMessage" =>
    match client.sendMessage p.chatId p.text with
    | .ok _ => (⟨rid, some .null, none⟩, [.session (.sendMessage p.chatId p.text)])
    | .error e => (⟨rid, none, some e⟩, [.session (.sendMessage p.chatId p.text)])
  | "sendFile" =>
    let cap := p.caption.getD ""
    match client.sendFile p.chatId p.filePath cap with
    | .ok _ => (⟨rid, some .null, none⟩, [.session (.sendFile p.chatId p.filePath cap)])
    | .error e => (⟨rid, none, some e⟩, [.session (.sendFile p.chatId p.filePath cap)])
  | "replyToMessage" =>
    match client.replyToMessage p.messageId p.text with
    | .ok _ => (⟨rid, some .null, none⟩, [.session (.replyToMessage p.messageId p.text)])
    | .error e => (⟨rid, none, some e⟩, [.session (.replyToMessage p.messageId p.text)])
  | "stop" =>
    (⟨rid, some (.str "stopping"), none⟩, [.scheduleShutdown])
  | m => (⟨rid, none, some ("Unknown RPC method: " ++ m)⟩, [])

/-- Embeds `handleRequest` (index.tsx lines 125-206).  The secret is the
daemon's in-memory `SECRET_TOKEN`.  The JS guard is
`if (!token || !timingSafeEqual(token, SECRET_TOKEN))`: an absent token and
the falsy empty string are rejected before the comparison runs.  The guard
sits outside the handler's try block, so when the comparison primitive
throws the whole async handler rejects (`.error`) without reaching any
method. -/
def handleRequest (secret : String) (client : ClientOracle) (req : RpcRequest) :
    Except String (RpcResponse × List Effect) :=
  let unauth : RpcResponse × List Effect :=
    (⟨req.id, none, some "Unauthorized"⟩, [])
  match req.token with
  | none => .ok unauth
  | some tok =>
    if tok = "" then .ok unauth
    else
      match timingSafeEqual tok secret with
      | .error e => .error e
      | .ok false => .ok unauth
      | .ok true => .ok (dispatchMethod client req.id req.method req.params)

/-- The connection loop's reply for one request (index.tsx lines 286-298):
the handler's response on fulfilment; on rejection — e.g. the comparison
primitive's throw — the catch branch's `{id: req.id, error: String(err)}`. -/
def connectionResponse (secret : String) (client : ClientOracle)
    (req : RpcRequest) : RpcResponse :=
  match handleRequest secret client req with
  | .ok p => p.1
  | .error e => ⟨req.id, none, some e⟩

/-- The side effects the daemon performs while answering one request:
the handler's recorded effects, and none on the rejection path. -/
def handlerEffects (secret : String) (client : ClientOracle)
    (req : RpcRequest) : List Effect :=
  match handleRequest secret client req with
  | .ok p => p.2
  | .error _ => []

/-- Embeds `shutdown` (index.tsx lines 210-220): the actions the deferred
shutdown performs, in order — close the listener, destroy the Session,
remove the state file, exit the process. -/
def shutdownEffects : List Effect :=
  [.closeServer, .destroyClient, .removeStateFile, .exitProcess]

/-! ### Newline-delimited framing (index.tsx lines 266-300)

The per-socket data handler keeps a string buffer; on each chunk it
appends the chunk, splits on the newline character, keeps the final
(possibly incomplete) piece as the new buffer and processes every
complete line.  `splitNl` is `buf.split('\n')` followed by
`lines.pop()`: the complete lines and the trailing remainder. -/

def splitNl : List Char → List (List Char) × List Char
  | [] => ([], [])
  | c :: rest =>
    let p := splitNl rest
    if c = '\n' then (([] : List Char) :: p.1, p.2)
    else
      match p.1 with
      | [] => ([], c :: p.2)
      | l :: ls => ((c :: l) :: ls, p.2)

/-- Feeding a sequence of chunks through the data handler, starting from a
given buffer: the complete lines extracted, in order, and the final
buffer contents. -/
def feedChunks (buf : List Char) : List (List Char) → List (List Char) × List Char
  | [] => ([], buf)
  | ch :: chs =>
    let p := splitNl (buf ++ ch)
    let q := feedChunks p.2 chs
    (p.1 ++ q.1, q.2)

/-- `line.trim()` is falsy: the line consists only of whitespace
characters, so the handler skips it (`if (!line.trim()) continue`). -/
def isBlankLine (l : List Char) : Bool :=
  l.all fun c => c == ' ' || c == '\t' || c == '\r' || c == '\n'

/-- Embeds the body of the per-line loop (index.tsx lines 275-299): skip
blank lines, answer unparseable lines with the `Invalid JSON` error under
id `?`, otherwise dispatch through `handleRequest` and emit its response.
`parse` stands for the platform JSON decode of one request line. -/
def processLine (secret : String) (client : ClientOracle)
    (parse : String → Option RpcRequest) (l : List Char) : List RpcResponse :=
  if isBlankLine l then []
  else
    match parse (String.mk l) with
    | none => [⟨"?", none, some "Invalid JSON"⟩]
    | some req => [connectionResponse secret client req]

/-- All response lines produced by one connection for a given chunk
sequence: extract the complete lines, then process each in order. -/
def serverResponses (secret : String) (client : ClientOracle)
    (parse : String → Option RpcRequest) (buf : List Char)
    (chunks : List (List Char)) : List RpcResponse :=
  ((feedChunks buf chunks).1.map (processLine secret client parse)).flatten

/-- One request line per request, each terminated by a newline — the byte
stream a well-behaved client writes. -/
def encodeLines (lines : List (List Char)) : List Char :=
  (lines.map (fun l => l ++ ['\n'])).flatten

/-! ### JSON decode (platform `JSON.parse`)

An executable recursive-descent decoder over the JSON constructs the
program reads and writes (objects, arrays, strings with the standard
short escapes, integers, booleans, null).  Structured values consume one
unit of fuel per nesting step; `jsonParse` supplies more fuel than any
input can use. -/

def escChar (e : Char) : Option Char :=
  if e = 'n' then some '\n'
  else if e = 't' then some '\t'
  else if e = 'r' then some '\r'
  else if e = '"' then some '"'
  else if e = '\\' then some '\\'
  else if e = '/' then some '/'
  else if e = 'b' then some (Char.ofNat 8)
  else if e = 'f' then some (Char.ofNat 12)
  else none

/-- Read the characters of a string literal after its opening quote, up to
the closing quote; decode backslash escapes. -/
def parseStrChars : List Char → Option (List Char × List Char)
  | [] => none
  | c :: rest =>
    if c = '"' then some ([], rest)
    else if c = '\\' then
      match rest with
      | [] => none
      | e :: rest2 =>
        match escChar e with
        | none => none
        | some d => (parseStrChars rest2).map fun p => (d :: p.1, p.2)
    else (parseStrChars rest).map fun p => (c :: p.1, p.2)
termination_by l => l.length
decreasing_by all_goals simp_arith [*]

def takeDigits : List Char → List Char × List Char
  | [] => ([], [])
  | c :: rest =>
    if c.isDigit then
      let p := takeDigits rest
      (c :: p.1, p.2)
    else ([], c :: rest)

def digitsVal (ds : List Char) : Nat :=
  ds.foldl (fun acc c => acc * 10 + (c.toNat - 48)) 0

mutual

def parseVal : Nat → List Char → Option (JVal × List Char)
  | 0, _ => none
  | _ + 1, [] => none
  | fuel + 1, c :: rest =>
    if c = '"' then
      match parseStrChars rest with
      | some p => some (.str (String.mk p.1), p.2)
      | none => none
    else if c = '{' then parseObjBody fuel rest
    else if c = '[' then parseArrBody fuel rest
    else if c = 't' then
      match rest with
      | 'r' :: 'u' :: 'e' :: r => some (.bool true, r)
      | _ => none
    else if c = 'f' then
      match rest with
      | 'a' :: 'l' :: 's' :: 'e' :: r => some (.bool false, r)
      | _ => none
    else if c = 'n' then
      match rest with
      | 'u' :: 'l' :: 'l' :: r => some (.null, r)
      | _ => none
    else if c = '-' then
      match takeDigits rest with
      | ([], _) => none
      | (ds, r) => some (.num (-(digitsVal ds : Int)), r)
    else if c.isDigit then
      match takeDigits (c :: rest) with
      | (ds, r) => some (.num (digitsVal ds), r)
    else none

def parseObjBody : Nat → List Char → Option (JVal × List Char)
  | 0, _ => none
  | fuel + 1, input =>
    match input with
    | '}' :: rest => some (.obj [], rest)
    | '"' :: rest =>
      match parseStrChars rest with
      | none => none
      | some (key, r1) =>
        match r1 with
        | ':' :: r2 =>
          match parseVal fuel r2 with
          | none => none
          | some (v, r3) => parseObjRest fuel [(String.mk key, v)] r3
        | _ => none
    | _ => none

def parseObjRest : Nat → List (String × JVal) → List Char → Option (JVal × List Char)
  | 0, _, _ => none
  | fuel + 1, acc, input =>
    match input with
    | '}' :: rest => some (.obj acc.reverse, rest)
    | ',' :: '"' :: rest =>
      match parseStrChars rest with
      | none => none
      | some (key, r1) =>
        match r1 with
        | ':' :: r2 =>
          match parseVal fuel r2 with
          | none => none
          | some (v, r3) => parseObjRest fuel ((String.mk key, v) :: acc) r3
        | _ => none
    | _ => none

def parseArrBody : Nat → List Char → Option (JVal × List Char)
  | 0, _ => none
  | fuel + 1, input =>
    match input with
    | ']' :: rest => some (.arr [], rest)
    | _ =>
      match parseVal fuel input with
      | none => none
      | some (v, r1) => parseArrRest fuel [v] r1

def parseArrRest : Nat → List JVal → List Char → Option (JVal × List Char)
  | 0, _, _ => none
  | fuel + 1, acc, input =>
    match input with
    | ']' :: rest => some (.arr acc.reverse, rest)
    | ',' :: rest =>
      match parseVal fuel rest with
      | none => none
      | some (v, r1) => parseArrRest fuel (v :: acc) r1
    | _ => none

end

/-- `JSON.parse` of a whole document: a single JSON value spanning the
full input, or failure. -/
def jsonParse (s : String) : Option JVal :=
  match parseVal (s.length + 1) s.data with
  | some (v, []) => some v
  | _ => none

/-! ### State store (daemon/state module, index.tsx lines 54-78, and
`readDaemonState` in the IPC module) -/

/-- `DaemonState` (index.tsx lines 60-66). -/
structure DaemonState where
  pid : Nat
  port : Nat
  startedAt : String
  token : String
deriving DecidableEq

/-- JSON string-literal escaping as performed by `JSON.stringify`:
quote, backslash and the common control characters become two-character
escapes; every other character is emitted as itself. -/
def escapeJChar (c : Char) : List Char :=
  if c = '"' then ['\\', '"']
  else if c = '\\' then ['\\', '\\']
  else if c = '\n' then ['\\', 'n']
  else if c = '\t' then ['\\', 't']
  else if c = '\r' then ['\\', 'r']
  else if c = Char.ofNat 8 then ['\\', 'b']
  else if c = Char.ofNat 12 then ['\\', 'f']
  else [c]

def escapeChars : List Char → List Char
  | [] => []
  | c :: l => escapeJChar c ++ escapeChars l

/-- A JSON string literal: quote, escaped characters, quote. -/
def quoteStr (s : String) : List Char :=
  '"' :: (escapeChars s.data ++ ['"'])

def digitChar (d : Nat) : Char :=
  match d with
  | 0 => '0' | 1 => '1' | 2 => '2' | 3 => '3' | 4 => '4'
  | 5 => '5' | 6 => '6' | 7 => '7' | 8 => '8' | _ => '9'

/-- Decimal digits of a natural number, least significant first. -/
def natToRevChars (n : Nat) : List Char :=
  if h : n < 10 then [digitChar n]
  else digitChar (n % 10) :: natToRevChars (n / 10)
termination_by n
decreasing_by
  exact Nat.div_lt_self (by omega) (by omega)

/-- Decimal rendering of a natural number, as `JSON.stringify` prints a
non-negative integer. -/
def natChars (n : Nat) : List Char :=
  (natToRevChars n).reverse

/-- The exact file content `writeDaemonState` persists (index.tsx line
71): `JSON.stringify(state)` with the object-literal field order
pid, port, startedAt, token. -/
def daemonStateChars (d : DaemonState) : List Char :=
  '{' :: (quoteStr "pid" ++ ':' :: (natChars d.pid
    ++ ',' :: (quoteStr "port" ++ ':' :: (natChars d.port
    ++ ',' :: (quoteStr "startedAt" ++ ':' :: (quoteStr d.startedAt
    ++ ',' :: (quoteStr "token" ++ ':' :: (quoteStr d.token
    ++ ['}']))))))))

/-- Embeds `writeDaemonState` (index.tsx lines 68-72) at the level of the
bytes written to the state file. -/
def writeDaemonState (d : DaemonState) : String :=
  String.mk (daemonStateChars d)

/-- Embeds `readDaemonState` (IPC module lines 147-154): read the file if
present and `JSON.parse` its content; any failure — missing file or
malformed content — yields null.  The JS cast `as DaemonState` performs
no validation, so the returned value is the raw parsed JSON. -/
def readDaemonState (fileContent : Option String) : Option JVal :=
  match fileContent with
  | none => none
  | some raw => jsonParse raw

/-- Property access on a parsed JSON object (`state.port`,
`state.token`): the value stored under the key, the last occurrence
winning as in a JS object built by `JSON.parse`; `none` is `undefined`. -/
def lookupField : List (String × JVal) → String → Option JVal
  | [], _ => none
  | (k, v) :: rest, key =>
    match lookupField rest key with
    | some w => some w
    | none => if k = key then some v else none

def getField (v : JVal) (key : String) : Option JVal :=
  match v with
  | .obj kvs => lookupField kvs key
  | _ => none

/-- `state.port` as the number the IPC caller dials: defined only when
the field is present and numeric. -/
def portOf (v : JVal) : Option Int :=
  match getField v "port" with
  | some (.num n) => some n
  | _ => none

/-- `state.token` as the string the IPC caller presents. -/
def tokenOf (v : JVal) : Option String :=
  match getField v "token" with
  | some (.str s) => some s
  | _ => none

/-- Modelled from the spec: the descriptor validity invariant of section 3
— integer pid and port fields, string startedAt, and a non-empty string
token.  The source only declares the TypeScript type; no runtime check of
this shape exists anywhere in the code. -/
def isValidDescriptor (v : JVal) : Bool :=
  match v with
  | .obj _ =>
    (match getField v "pid" with | some (.num _) => true | _ => false) &&
    (match getField v "port" with | some (.num _) => true | _ => false) &&
    (match getField v "startedAt" with | some (.str _) => true | _ => false) &&
    (match getField v "token" with | some (.str t) => !t.isEmpty | _ => false)
  | _ => false

/-- The JSON value denoted by a written descriptor. -/
def jvalOfDaemonState (d : DaemonState) : JVal :=
  .obj [("pid", .num d.pid), ("port", .num d.port),
        ("startedAt", .str d.startedAt), ("token", .str d.token)]

/-! ### Connection strategy (`connect.ts` and `tryConnectDaemon`) -/

/-- JS truthiness of a parsed JSON value, for the guard
`if (!state) return null` in `tryConnectDaemon`. -/
def jfalsy : JVal → Bool
  | .null => true
  | .bool b => !b
  | .num n => n == 0
  | .str s => s.isEmpty
  | .arr _ => false
  | .obj _ => false

/-- The probe timeout `tryConnectDaemon` passes to `callPort` for the
`ping` liveness RPC (IPC module line 315). -/
def pingProbeTimeoutMs : Nat := 1500

/-- The environment a connection attempt runs against: the state file
content, and whether a `ping` RPC dialled at a given port with a given
token succeeds within a given timeout (covering the network and the
daemon side of the probe: connection refused, timeout and Unauthorized
are all `false`). -/
structure ConnectEnv where
  fileContent : Option String
  pingOk : Option Int → Option String → Nat → Bool

/-- What `connectClient` hands back: either the IPC proxy holding the
dialled port and token, or a freshly booted private in-process session. -/
inductive ConnResult where
  | ipc (port : Option Int) (token : Option String) : ConnResult
  | privateSession : ConnResult
deriving DecidableEq

/-- Embeds `tryConnectDaemon` (IPC module lines 310-320): read the state
file; bail out on a falsy value; probe with a 1.5 s `ping`; on success
build an `IpcClient` around the stored port and token, otherwise null. -/
def tryConnectDaemon (env : ConnectEnv) : Option (Option Int × Option String) :=
  match readDaemonState env.fileContent with
  | none => none
  | some v =>
    if jfalsy v then none
    else if env.pingOk (portOf v) (tokenOf v) pingProbeTimeoutMs then
      some (portOf v, tokenOf v)
    else none

/-- Embeds `connectClient` (connect.ts lines 25-65): fast path through the
daemon when the probe succeeds, otherwise the slow path boots a private
session. -/
def connectClient (env : ConnectEnv) : ConnResult :=
  match tryConnectDaemon env with
  | some pt => .ipc pt.1 pt.2
  | none => .privateSession

/-! ### Client-side date revival (IPC module lines 159-181) -/

/-- JavaScript runtime values as they come out of `JSON.parse` on the
client, plus the `Date` objects revival introduces; a date is recorded by
the string it was constructed from. -/
inductive JSVal where
  | vnull : JSVal
  | vbool (b : Bool) : JSVal
  | vnum (n : Int) : JSVal
  | vstr (s : String) : JSVal
  | vdate (s : String) : JSVal
  | varr (xs : List JSVal) : JSVal
  | vobj (kvs : List (String × JSVal)) : JSVal

/-- The regular expression `ISO_RE` (IPC module line 159): an anchored
prefix match of four digits, dash, two digits, dash, two digits, `T`,
two digits, colon, two digits, colon, two digits. -/
def isoMatch : List Char → Bool
  | a :: b :: c :: d :: '-' :: e :: f :: '-' :: g :: h :: 'T' ::
      i :: j :: ':' :: k :: m :: ':' :: n :: o :: _ =>
    a.isDigit && b.isDigit && c.isDigit && d.isDigit &&
    e.isDigit && f.isDigit && g.isDigit && h.isDigit &&
    i.isDigit && j.isDigit && k.isDigit && m.isDigit &&
    n.isDigit && o.isDigit
  | _ => false

def twoDigitVal (hi lo : Char) : Nat :=
  (hi.toNat - 48) * 10 + (lo.toNat - 48)

/-- Modelled from the spec: validity of `new Date(value)` for a string
already matching `ISO_RE` — the platform Date parser yields a valid time
value only when the calendar components are in range, and NaN otherwise
(`Number.isNaN(d.getTime())` in the source guards exactly this). -/
def jsDateValid : List Char → Bool
  | _ :: _ :: _ :: _ :: '-' :: e :: f :: '-' :: g :: h :: 'T' ::
      i :: j :: ':' :: k :: m :: ':' :: n :: o :: _ =>
    let mo := twoDigitVal e f
    let da := twoDigitVal g h
    let hr := twoDigitVal i j
    let mi := twoDigitVal k m
    let se := twoDigitVal n o
    decide (1 ≤ mo) && decide (mo ≤ 12) && decide (1 ≤ da) && decide (da ≤ 31) &&
    decide (hr ≤ 23) && decide (mi ≤ 59) && decide (se ≤ 59)
  | _ => false

mutual

/-- Embeds `reviveDates` (IPC module lines 161-181): a string matching
`ISO_RE` becomes a `Date` when the platform parses it to a valid time
value and stays a string otherwise; arrays and objects are rebuilt by
recursing into every element and property value; everything else is
returned unchanged. -/
def reviveDates : JSVal → JSVal
  | .vnull => .vnull
  | .vbool b => .vbool b
  | .vnum n => .vnum n
  | .vdate s => .vdate s
  | .vstr s =>
    if isoMatch s.data then
      if jsDateValid s.data then .vdate s else .vstr s
    else .vstr s
  | .varr xs => .varr (reviveList xs)
  | .vobj kvs => .vobj (reviveObj kvs)

def reviveList : List JSVal → List JSVal
  | [] => []
  | v :: vs => reviveDates v :: reviveList vs

def reviveObj : List (String × JSVal) → List (String × JSVal)
  | [] => []
  | (k, v) :: kvs => (k, reviveDates v) :: reviveObj kvs

end

/-! ### IpcClient.destroy and the per-command cleanup path -/

/-- The daemon-side world a CLI command can affect from the outside: the
daemon process itself and its state file. -/
structure DaemonWorld where
  daemonRunning : Bool
  stateFile : Option String
deriving DecidableEq

/-- Embeds `IpcClient.destroy` (IPC module lines 299-301): the body is
empty — no RPC is sent, nothing is contacted or changed.  The second
component records the RPC method names sent to the daemon during the
call. -/
def ipcDestroy (w : DaemonWorld) : DaemonWorld × List String :=
  (w, [])

/-- Embeds the per-command cleanup (`finally { client?.destroy() }` in the
Chats command and its siblings) for the case where the handle is an
`IpcClient`. -/
def commandCleanup (w : DaemonWorld) : DaemonWorld × List String :=
  ipcDestroy w

/-- One character of input through the data handler, at the level of the
lines emitted so far and the pending buffer. -/
def feedChar (st : List (List Char) × List Char) (c : Char) :
    List (List Char) × List Char :=
  if c = '\n' then (st.1 ++ [st.2], []) else (st.1, st.2 ++ [c])

/-- A concrete one-line decode table used to instantiate the pipelining
theorem: the single line `a` decodes to a `ping` request. -/
def wParse : String → Option RpcRequest :=
  fun s => if s = "a" then some ⟨"1", "ping", emptyParams, some "s"⟩ else none

def wReq : RpcRequest := ⟨"1", "ping", emptyParams, some "s"⟩

/-- A 64-character all-ASCII secret, the shape `SECRET_TOKEN` always has
(64 hex characters: 64 UTF-16 units, 64 UTF-8 bytes). -/
def secretA : String := String.mk (List.replicate 64 'a')

/-- A mismatching all-ASCII presented token of the secret's length. -/
def tokenB : String := String.mk (List.replicate 64 'b')

/-- A mismatching presented token of 64 UTF-16 units whose UTF-8 encoding
is 128 bytes: it passes the source's length guard but makes the
comparison primitive throw. -/
def tokenE : String := String.mk (List.replicate 64 'é')

/-! ## Lemmas about the constant-time comparison -/

theorem cryptoTimingSafeEqual_cost (a b : List Nat) :
    (cryptoTimingSafeEqual a b).2 = min a.length b.length := by
  induction a generalizing b with
  | nil => cases b <;> simp [cryptoTimingSafeEqual]
  | cons x xs ih =>
    cases b with
    | nil => simp [cryptoTimingSafeEqual]
    | cons y ys =>
      simp [cryptoTimingSafeEqual, ih, Nat.succ_min_succ]

theorem cryptoTimingSafeEqual_eq_iff (a b : List Nat) :
    (cryptoTimingSafeEqual a b).1 = true ↔ a = b := by
  induction a generalizing b with
  | nil => cases b <;> simp [cryptoTimingSafeEqual]
  | cons x xs ih =>
    cases b with
    | nil => simp [cryptoTimingSafeEqual]
    | cons y ys => simp [cryptoTimingSafeEqual, ih]

theorem char_toNat_lt (c : Char) : c.toNat < 0x110000 := by
  have h := c.valid
  unfold Char.toNat
  rcases h with h | ⟨h1, h2⟩
  · omega
  · omega

theorem charEq_of_toNat {c d : Char} (h : c.toNat = d.toNat) : c = d :=
  Char.ext (UInt32.ext h)

theorem utf8Encode_ne_nil (c : Char) : utf8Encode c ≠ [] := by
  unfold utf8Encode
  split_ifs <;> simp

/-- UTF-8 is self-delimiting: equal byte streams starting with two encoded
characters force the characters and the remainders to agree (the first
byte's range determines the encoding's length; the bytes determine the
scalar). -/
theorem utf8Encode_append_inj (c d : Char) (r1 r2 : List Nat)
    (h : utf8Encode c ++ r1 = utf8Encode d ++ r2) : c = d ∧ r1 = r2 := by
  have hc := char_toNat_lt c
  have hd := char_toNat_lt d
  unfold utf8Encode at h
  split_ifs at h <;>
    simp only [List.cons_append, List.nil_append, List.cons.injEq] at h <;>
    first
    | exact ⟨charEq_of_toNat (by omega), h.2⟩
    | exact ⟨charEq_of_toNat (by omega), h.2.2⟩
    | exact ⟨charEq_of_toNat (by omega), h.2.2.2⟩
    | exact ⟨charEq_of_toNat (by omega), h.2.2.2.2⟩
    | (exfalso; omega)

theorem strUtf8Chars_inj (l1 : List Char) :
    ∀ l2, strUtf8Chars l1 = strUtf8Chars l2 → l1 = l2 := by
  induction l1 with
  | nil =>
    intro l2 h
    cases l2 with
    | nil => rfl
    | cons d l2 =>
      exfalso
      simp only [strUtf8Chars] at h
      rcases List.append_eq_nil.mp h.symm with ⟨h1, _⟩
      exact utf8Encode_ne_nil d h1
  | cons c l1 ih =>
    intro l2 h
    cases l2 with
    | nil =>
      exfalso
      simp only [strUtf8Chars] at h
      rcases List.append_eq_nil.mp h with ⟨h1, _⟩
      exact utf8Encode_ne_nil c h1
    | cons d l2 =>
      simp only [strUtf8Chars] at h
      obtain ⟨hcd, hr⟩ := utf8Encode_append_inj c d _ _ h
      rw [hcd, ih l2 hr]

theorem strUtf8_inj {a b : String} (h : strUtf8 a = strUtf8 b) : a = b :=
  String.ext (strUtf8Chars_inj a.data b.data h)

theorem timingSafeEqual_self (a : String) : timingSafeEqual a a = .ok true := by
  unfold timingSafeEqual
  simp [cryptoTimingSafeEqual_eq_iff]

theorem timingSafeEqual_ok_true {a b : String}
    (h : timingSafeEqual a b = .ok true) : a = b := by
  unfold timingSafeEqual at h
  split_ifs at h with h1 h2
  all_goals
    first
    | (exfalso; simp at h; done)
    | (simp only [Except.ok.injEq] at h
       exact strUtf8_inj ((cryptoTimingSafeEqual_eq_iff _ _).1 h))

theorem utf16Units_pos (c : Char) : 0 < utf16Units c := by
  unfold utf16Units
  split <;> omega

theorem eq_empty_of_jsLength_eq_zero {s : String} (h : jsLength s = 0) : s = "" := by
  obtain ⟨data⟩ := s
  cases data with
  | nil => rfl
  | cons c l =>
    exfalso
    have hp := utf16Units_pos c
    have h2 : utf16Units c + jsLenChars l = 0 := h
    omega

set_option maxRecDepth 8192 in
/-- Counterexample to claim C7 as stated: two mismatching presented
tokens of the secret's JS length — one all-ASCII, one all-non-ASCII —
take different comparison times, because the primitive throws on the
UTF-8 byte-length mismatch of the second before any byte-wise work while
the first runs the full 64-byte comparison. -/
theorem comparison_cost_not_uniform :
    jsLength tokenB = jsLength secretA
      ∧ jsLength tokenE = jsLength secretA
      ∧ timingSafeEqualCost tokenB secretA ≠ timingSafeEqualCost tokenE secretA := by
  refine ⟨rfl, rfl, ?_⟩
  decide

/-- Claim C7 (amended): among presented tokens agreeing with the secret
in UTF-16 length and in UTF-8 byte length (in particular every ASCII
token of the secret's length — the secret is always 64 hex characters),
the comparison cost is one and the same number: the primitive visits
every byte without short-circuiting, so timing is independent of the
position of the first mismatching byte and of the token's content.
Tokens that pass the length guard with a different byte length are
instead rejected through the primitive's thrown `RangeError` before any
byte-wise comparison, again at a cost independent of content. -/
theorem token_comparison_constant_time (secret a b : String)
    (ha : jsLength a = jsLength secret) (hb : jsLength b = jsLength secret) :
    ((strUtf8 a).length = (strUtf8 secret).length →
      (strUtf8 b).length = (strUtf8 secret).length →
      timingSafeEqualCost a secret = timingSafeEqualCost b secret)
    ∧ ((strUtf8 a).length ≠ (strUtf8 secret).length →
      (strUtf8 b).length ≠ (strUtf8 secret).length →
      timingSafeEqualCost a secret = timingSafeEqualCost b secret) := by
  constructor
  · intro ha8 hb8
    unfold timingSafeEqualCost
    rw [if_neg (by omega), if_neg (by omega), if_neg (by omega), if_neg (by omega),
      cryptoTimingSafeEqual_cost, cryptoTimingSafeEqual_cost, ha8, hb8]
  · intro ha8 hb8
    unfold timingSafeEqualCost
    rw [if_neg (by omega), if_pos ha8, if_neg (by omega), if_pos hb8]

/-- Witness for C7 at concrete ASCII tokens: `xy` mismatches the secret
`ab` at position 0 and `aq` mismatches at position 1, yet the costs
agree. -/
theorem token_comparison_constant_time_witness :
    ((strUtf8 "xy").length = (strUtf8 "ab").length →
      (strUtf8 "aq").length = (strUtf8 "ab").length →
      timingSafeEqualCost "xy" "ab" = timingSafeEqualCost "aq" "ab")
    ∧ ((strUtf8 "xy").length ≠ (strUtf8 "ab").length →
      (strUtf8 "aq").length ≠ (strUtf8 "ab").length →
      timingSafeEqualCost "xy" "ab" = timingSafeEqualCost "aq" "ab") :=
  token_comparison_constant_time "ab" "xy" "aq" (by decide) (by decide)

/-! ## Claims about the request handler -/

set_option maxRecDepth 8192 in
/-- Counterexample to claim C1 as stated: the mismatching token of 64
non-ASCII characters passes the UTF-16 length guard, makes the comparison
primitive throw on the UTF-8 byte-length mismatch before the try block,
and the connection loop replies with the RangeError message — not
`Unauthorized`. -/
theorem mismatched_token_rangeerror :
    tokenE ≠ secretA
      ∧ jsLength tokenE = jsLength secretA
      ∧ handleRequest secretA trivOracle ⟨"1", "ping", emptyParams, some tokenE⟩
          = .error rangeErrorMsg
      ∧ connectionResponse secretA trivOracle ⟨"1", "ping", emptyParams, some tokenE⟩
          = ⟨"1", none, some rangeErrorMsg⟩
      ∧ (connectionResponse secretA trivOracle ⟨"1", "ping", emptyParams, some tokenE⟩).error
          ≠ some "Unauthorized" := by
  refine ⟨by decide, rfl, rfl, rfl, by decide⟩

/-- Claim C1 (amended): a request whose token is absent or differs from
the daemon's secret never executes the method and produces no side effect
— no Session operation, no scheduled shutdown — and the connection's
reply carries the request's id and an error, never a result.  The error
is `Unauthorized` whenever the token's UTF-8 byte length matches the
secret's if its UTF-16 length does (in particular for every absent,
shorter, longer or all-ASCII token); a mismatching token that passes the
UTF-16 length guard with a different UTF-8 byte length instead makes the
comparison primitive throw and the reply carries the RangeError message. -/
theorem unauthorized_request_no_effects (secret : String) (client : ClientOracle)
    (req : RpcRequest) (h : ∀ t, req.token = some t → t ≠ secret) :
    handlerEffects secret client req = []
      ∧ (connectionResponse secret client req).id = req.id
      ∧ (connectionResponse secret client req).result = none
      ∧ ((∀ t, req.token = some t → jsLength t = jsLength secret →
            (strUtf8 t).length = (strUtf8 secret).length) →
          connectionResponse secret client req = ⟨req.id, none, some "Unauthorized"⟩)
      ∧ ((∃ t, req.token = some t ∧ jsLength t = jsLength secret
            ∧ (strUtf8 t).length ≠ (strUtf8 secret).length) →
          connectionResponse secret client req = ⟨req.id, none, some rangeErrorMsg⟩) := by
  obtain ⟨rid, method, params, token⟩ := req
  cases token with
  | none =>
    have hh : handleRequest secret client ⟨rid, method, params, none⟩
        = .ok (⟨rid, none, some "Unauthorized"⟩, []) := by
      simp [handleRequest]
    refine ⟨?_, ?_, ?_, fun _ => ?_, ?_⟩
    · simp [handlerEffects, hh]
    · simp [connectionResponse, hh]
    · simp [connectionResponse, hh]
    · simp [connectionResponse, hh]
    · rintro ⟨t, ht, _, _⟩
      exact Option.noConfusion ht
  | some tok =>
    have hne : tok ≠ secret := h tok rfl
    by_cases he : tok = ""
    · have hh : handleRequest secret client ⟨rid, method, params, some tok⟩
          = .ok (⟨rid, none, some "Unauthorized"⟩, []) := by
        simp [handleRequest, he]
      refine ⟨?_, ?_, ?_, fun _ => ?_, ?_⟩
      · simp [handlerEffects, hh]
      · simp [connectionResponse, hh]
      · simp [connectionResponse, hh]
      · simp [connectionResponse, hh]
      · rintro ⟨t, ht, hjs2, h82⟩
        have htt : tok = t := by injection ht
        subst htt
        subst he
        have hz : jsLength secret = 0 := by rw [← hjs2]; rfl
        exact absurd (eq_empty_of_jsLength_eq_zero hz).symm hne
    · by_cases hjs : jsLength tok = jsLength secret
      · by_cases h8 : (strUtf8 tok).length = (strUtf8 secret).length
        · have hcmp : (cryptoTimingSafeEqual (strUtf8 tok) (strUtf8 secret)).1 = false := by
            cases hv : (cryptoTimingSafeEqual (strUtf8 tok) (strUtf8 secret)).1
            · rfl
            · exact absurd (strUtf8_inj ((cryptoTimingSafeEqual_eq_iff _ _).1 hv)) hne
          have hts : timingSafeEqual tok secret = .ok false := by
            unfold timingSafeEqual
            rw [if_neg (by omega), if_neg (by omega), hcmp]
          have hh : handleRequest secret client ⟨rid, method, params, some tok⟩
              = .ok (⟨rid, none, some "Unauthorized"⟩, []) := by
            simp [handleRequest, he, hts]
          refine ⟨?_, ?_, ?_, fun _ => ?_, ?_⟩
          · simp [handlerEffects, hh]
          · simp [connectionResponse, hh]
          · simp [connectionResponse, hh]
          · simp [connectionResponse, hh]
          · rintro ⟨t, ht, hjs2, h82⟩
            have htt : tok = t := by injection ht
            subst htt
            exact absurd h8 h82
        · have hts : timingSafeEqual tok secret = .error rangeErrorMsg := by
            unfold timingSafeEqual
            rw [if_neg (by omega), if_pos h8]
          have hh : handleRequest secret client ⟨rid, method, params, some tok⟩
              = .error rangeErrorMsg := by
            simp [handleRequest, he, hts]
          refine ⟨?_, ?_, ?_, ?_, fun _ => ?_⟩
          · simp [handlerEffects, hh]
          · simp [connectionResponse, hh]
          · simp [connectionResponse, hh]
          · intro h4
            exact absurd (h4 tok rfl hjs) h8
          · simp [connectionResponse, hh]
      · have hts : timingSafeEqual tok secret = .ok false := by
          unfold timingSafeEqual
          rw [if_pos hjs]
        have hh : handleRequest secret client ⟨rid, method, params, some tok⟩
            = .ok (⟨rid, none, some "Unauthorized"⟩, []) := by
          simp [handleRequest, he, hts]
        refine ⟨?_, ?_, ?_, fun _ => ?_, ?_⟩
        · simp [handlerEffects, hh]
        · simp [connectionResponse, hh]
        · simp [connectionResponse, hh]
        · simp [connectionResponse, hh]
        · rintro ⟨t, ht, hjs2, _⟩
          have htt : tok = t := by injection ht
          subst htt
          exact absurd hjs2 hjs

/-- Witness for C1 at a concrete input: a `ping` request carrying no
token is refused without effects, with the `Unauthorized` reply. -/
theorem unauthorized_request_no_effects_witness :
    handlerEffects "s" trivOracle ⟨"1", "ping", emptyParams, none⟩ = []
      ∧ (connectionResponse "s" trivOracle ⟨"1", "ping", emptyParams, none⟩).id = "1"
      ∧ (connectionResponse "s" trivOracle ⟨"1", "ping", emptyParams, none⟩).result = none
      ∧ ((∀ t, (none : Option String) = some t → jsLength t = jsLength "s" →
            (strUtf8 t).length = (strUtf8 "s").length) →
          connectionResponse "s" trivOracle ⟨"1", "ping", emptyParams, none⟩
            = ⟨"1", none, some "Unauthorized"⟩)
      ∧ ((∃ t, (none : Option String) = some t ∧ jsLength t = jsLength "s"
            ∧ (strUtf8 t).length ≠ (strUtf8 "s").length) →
          connectionResponse "s" trivOracle ⟨"1", "ping", emptyParams, none⟩
            = ⟨"1", none, some rangeErrorMsg⟩) :=
  unauthorized_request_no_effects "s" trivOracle ⟨"1", "ping", emptyParams, none⟩
    (fun _ ht => Option.noConfusion ht)

/-- Claim C3: an authenticated `stop` produces the success response — id
echoed, a result and no error — while the handler itself only schedules
shutdown for a later tick; none of the four inline shutdown actions
(closing the listener, destroying the Session, removing the state file,
exiting) happens in the handler. -/
theorem stop_responds_before_shutdown (secret : String) (client : ClientOracle)
    (rid : String) (p : RpcParams) (hs : secret ≠ "") :
    handleRequest secret client ⟨rid, "stop", p, some secret⟩
        = .ok (⟨rid, some (.str "stopping"), none⟩, [Effect.scheduleShutdown])
      ∧ ∀ e ∈ shutdownEffects,
        e ∉ handlerEffects secret client ⟨rid, "stop", p, some secret⟩ := by
  have hts : timingSafeEqual secret secret = .ok true := timingSafeEqual_self secret
  have hmain : handleRequest secret client ⟨rid, "stop", p, some secret⟩
      = .ok (⟨rid, some (.str "stopping"), none⟩, [Effect.scheduleShutdown]) := by
    simp [handleRequest, dispatchMethod, hs, hts]
  refine ⟨hmain, ?_⟩
  intro e he
  have heff : handlerEffects secret client ⟨rid, "stop", p, some secret⟩
      = [Effect.scheduleShutdown] := by
    simp [handlerEffects, hmain]
  rw [heff]
  simp only [shutdownEffects, List.mem_cons, List.not_mem_nil, or_false] at he
  rcases he with rfl | rfl | rfl | rfl <;> simp

/-- Witness for C3 at a concrete secret and request id. -/
theorem stop_responds_before_shutdown_witness :
    handleRequest "s" trivOracle ⟨"7", "stop", emptyParams, some "s"⟩
        = .ok (⟨"7", some (.str "stopping"), none⟩, [Effect.scheduleShutdown])
      ∧ ∀ e ∈ shutdownEffects,
        e ∉ handlerEffects "s" trivOracle ⟨"7", "stop", emptyParams, some "s"⟩ :=
  stop_responds_before_shutdown "s" trivOracle "7" emptyParams (by decide)

/-! ## Lemmas about the newline framing -/

theorem splitNl_no_newline (l : List Char) (h : ('\n' : Char) ∉ l) :
    splitNl l = ([], l) := by
  induction l with
  | nil => rfl
  | cons c l ih =>
    have hc : c ≠ '\n' := fun e => h (e ▸ List.mem_cons_self c l)
    have hl : ('\n' : Char) ∉ l := fun hm => h (List.mem_cons_of_mem c hm)
    simp [splitNl, hc, ih hl]

theorem splitNl_rem_no_newline (l : List Char) : ('\n' : Char) ∉ (splitNl l).2 := by
  induction l with
  | nil => simp [splitNl]
  | cons c l ih =>
    by_cases hc : c = '\n'
    · simpa [splitNl, hc] using ih
    · cases hp : (splitNl l).1 with
      | nil =>
        simp only [splitNl, if_neg hc, hp]
        intro hm
        rcases List.mem_cons.1 hm with he | hm
        · exact hc he.symm
        · exact ih hm
      | cons x xs => simpa [splitNl, hc, hp] using ih

theorem splitNl_line (l rest : List Char) (h : ('\n' : Char) ∉ l) :
    splitNl (l ++ '\n' :: rest) = (l :: (splitNl rest).1, (splitNl rest).2) := by
  induction l with
  | nil => simp [splitNl]
  | cons c l ih =>
    have hc : c ≠ '\n' := fun e => h (e ▸ List.mem_cons_self c l)
    have hl : ('\n' : Char) ∉ l := fun hm => h (List.mem_cons_of_mem c hm)
    simp [splitNl, hc, ih hl]

theorem feedChar_splitNl (cs : List Char) :
    ∀ (ls : List (List Char)) (buf : List Char), ('\n' : Char) ∉ buf →
      cs.foldl feedChar (ls, buf)
        = (ls ++ (splitNl (buf ++ cs)).1, (splitNl (buf ++ cs)).2) := by
  induction cs with
  | nil =>
    intro ls buf hbuf
    simp [splitNl_no_newline buf hbuf]
  | cons c cs ih =>
    intro ls buf hbuf
    by_cases hc : c = '\n'
    · subst hc
      rw [List.foldl_cons]
      have h1 : feedChar (ls, buf) '\n' = (ls ++ [buf], []) := by simp [feedChar]
      rw [h1, ih (ls ++ [buf]) [] (by simp), splitNl_line buf cs hbuf]
      simp
    · rw [List.foldl_cons]
      have h1 : feedChar (ls, buf) c = (ls, buf ++ [c]) := by simp [feedChar, hc]
      have hbc : ('\n' : Char) ∉ buf ++ [c] := by
        intro hm
        rcases List.mem_append.1 hm with hm | hm
        · exact hbuf hm
        · exact hc (List.mem_singleton.1 hm).symm
      rw [h1, ih ls (buf ++ [c]) hbc]
      simp

theorem splitNl_eq_foldl (l : List Char) :
    splitNl l = l.foldl feedChar ([], []) := by
  rw [feedChar_splitNl l [] [] (by simp)]
  simp

theorem splitNl_append (a b : List Char) :
    splitNl (a ++ b)
      = ((splitNl a).1 ++ (splitNl ((splitNl a).2 ++ b)).1,
         (splitNl ((splitNl a).2 ++ b)).2) := by
  rw [splitNl_eq_foldl (a ++ b), List.foldl_append, ← splitNl_eq_foldl a]
  cases hp : splitNl a with
  | mk ls buf =>
    have hbuf : ('\n' : Char) ∉ buf := by
      have := splitNl_rem_no_newline a
      rwa [hp] at this
    exact feedChar_splitNl b ls buf hbuf

theorem feedChunks_eq_splitNl (chunks : List (List Char)) :
    ∀ buf : List Char, ('\n' : Char) ∉ buf →
      feedChunks buf chunks
        = ((splitNl (buf ++ chunks.flatten)).1, (splitNl (buf ++ chunks.flatten)).2) := by
  induction chunks with
  | nil =>
    intro buf hbuf
    simp [feedChunks, splitNl_no_newline buf hbuf]
  | cons ch chs ih =>
    intro buf hbuf
    have hrem := splitNl_rem_no_newline (buf ++ ch)
    rw [List.flatten_cons, ← List.append_assoc, splitNl_append (buf ++ ch) chs.flatten]
    simp only [feedChunks, ih (splitNl (buf ++ ch)).2 hrem]

theorem splitNl_encodeLines (lines : List (List Char))
    (h : ∀ l ∈ lines, ('\n' : Char) ∉ l) :
    splitNl (encodeLines lines) = (lines, []) := by
  induction lines with
  | nil => simp [encodeLines, splitNl]
  | cons l ls ih =>
    have hl : ('\n' : Char) ∉ l := h l (List.mem_cons_self l ls)
    have hls : ∀ x ∈ ls, ('\n' : Char) ∉ x := fun x hx => h x (List.mem_cons_of_mem l hx)
    simp only [encodeLines, List.map_cons, List.flatten_cons, List.append_assoc,
      List.singleton_append]
    rw [splitNl_line l _ hl]
    simp only [encodeLines] at ih
    rw [ih hls]

/-- Every branch of the method dispatch echoes the request's id. -/
theorem dispatchMethod_id (client : ClientOracle) (rid method : String)
    (p : RpcParams) : (dispatchMethod client rid method p).1.id = rid := by
  unfold dispatchMethod
  dsimp only
  repeat' split <;> try rfl

/-- Every reply of the connection loop echoes the request's id: so does
every fulfilment branch of the handler, and the catch branch uses
`req.id` explicitly. -/
theorem connectionResponse_id (secret : String) (client : ClientOracle)
    (req : RpcRequest) :
    (connectionResponse secret client req).id = req.id := by
  unfold connectionResponse handleRequest
  rcases req with ⟨rid, method, params, token⟩
  rcases token with _ | tok
  · rfl
  · simp only
    by_cases he : tok = ""
    · simp [he]
    · rw [if_neg he]
      rcases hts : timingSafeEqual tok secret with e | b
      · simp
      · rcases b with _ | _
        · simp
        · simp [dispatchMethod_id]

/-- Claim C2: however a newline-terminated stream of N request lines is
chunked across reads, the data handler recovers exactly the original
lines in order, and the connection produces exactly N responses, in
order, each echoing the id of the request it answers. -/
theorem pipelined_requests_in_order (secret : String) (client : ClientOracle)
    (parse : String → Option RpcRequest)
    (lines : List (List Char)) (reqs : List RpcRequest) (chunks : List (List Char))
    (hstream : chunks.flatten = encodeLines lines)
    (hlines : List.Forall₂
      (fun l r => ('\n' : Char) ∉ l ∧ isBlankLine l = false ∧ parse (String.mk l) = some r)
      lines reqs) :
    (feedChunks [] chunks).1 = lines
      ∧ serverResponses secret client parse [] chunks
          = reqs.map (fun r => connectionResponse secret client r)
      ∧ (serverResponses secret client parse [] chunks).length = reqs.length
      ∧ (serverResponses secret client parse [] chunks).map (fun resp => resp.id)
          = reqs.map (fun r => r.id) := by
  have hnl : ∀ l ∈ lines, ('\n' : Char) ∉ l := by
    clear hstream
    induction hlines with
    | nil => intro l hl; cases hl
    | cons h _ ih =>
      intro l hl
      rcases List.mem_cons.1 hl with rfl | hl
      · exact h.1
      · exact ih l hl
  have hfeed : feedChunks [] chunks = (lines, []) := by
    rw [feedChunks_eq_splitNl chunks [] (by simp), List.nil_append, hstream,
      splitNl_encodeLines lines hnl]
  have hproc : (lines.map (processLine secret client parse)).flatten
      = reqs.map (fun r => connectionResponse secret client r) := by
    clear hstream hfeed hnl
    induction hlines with
    | nil => simp
    | @cons l r ls rs h _ ih =>
      simp only [List.map_cons, List.flatten_cons, ih]
      have hstep : processLine secret client parse l
          = [connectionResponse secret client r] := by
        simp [processLine, h.2.1, h.2.2]
      rw [hstep]
      simp
  have hresp : serverResponses secret client parse [] chunks
      = reqs.map (fun r => connectionResponse secret client r) := by
    unfold serverResponses
    rw [hfeed]
    exact hproc
  refine ⟨by rw [hfeed], hresp, by rw [hresp]; simp, ?_⟩
  rw [hresp]
  simp only [List.map_map]
  exact List.map_congr_left fun r _ => connectionResponse_id secret client r

/-- Witness for C2: the single line `a` split into the chunks `a` and a
bare newline is reassembled into one request and answered once with the
matching id. -/
theorem pipelined_requests_in_order_witness :
    (feedChunks [] [['a'], ['\n']]).1 = [['a']]
      ∧ serverResponses "s" trivOracle wParse [] [['a'], ['\n']]
          = [wReq].map (fun r => connectionResponse "s" trivOracle r)
      ∧ (serverResponses "s" trivOracle wParse [] [['a'], ['\n']]).length = [wReq].length
      ∧ (serverResponses "s" trivOracle wParse [] [['a'], ['\n']]).map (fun resp => resp.id)
          = [wReq].map (fun r => r.id) :=
  pipelined_requests_in_order "s" trivOracle wParse [['a']] [wReq] [['a'], ['\n']]
    (by rfl)
    (List.Forall₂.cons ⟨by decide, by rfl, by rfl⟩ List.Forall₂.nil)

/-! ## Claims about the connection strategy and the state store -/

/-- Claim C4: `connect()` hands back the IPC proxy exactly when the
descriptor is present (and truthy) and the `ping` probe with the stored
port and token succeeds within the 1.5-second probe timeout; on every
other outcome — no descriptor, unparseable descriptor, or a failed probe
(not listening, timeout, token mismatch) — it boots a private in-process
session instead. -/
theorem connect_fast_path_iff (env : ConnectEnv) :
    pingProbeTimeoutMs = 1500
      ∧ (∀ p t, connectClient env = .ipc p t ↔
          ∃ v, readDaemonState env.fileContent = some v ∧ jfalsy v = false
            ∧ env.pingOk (portOf v) (tokenOf v) pingProbeTimeoutMs = true
            ∧ p = portOf v ∧ t = tokenOf v)
      ∧ (connectClient env = .privateSession ↔
          ¬ ∃ v, readDaemonState env.fileContent = some v ∧ jfalsy v = false
            ∧ env.pingOk (portOf v) (tokenOf v) pingProbeTimeoutMs = true) := by
  refine ⟨rfl, ?_, ?_⟩
  · intro p t
    unfold connectClient tryConnectDaemon
    cases hr : readDaemonState env.fileContent with
    | none => simp
    | some v =>
      by_cases hf : jfalsy v = true
      · simp [hf]
      · by_cases hping : env.pingOk (portOf v) (tokenOf v) pingProbeTimeoutMs = true
        · simp only [Bool.not_eq_true] at hf
          simp [hf, hping]
          tauto
        · simp only [Bool.not_eq_true] at hf hping
          simp [hf, hping]
  · unfold connectClient tryConnectDaemon
    cases hr : readDaemonState env.fileContent with
    | none => simp
    | some v =>
      by_cases hf : jfalsy v = true
      · simp [hf]
      · by_cases hping : env.pingOk (portOf v) (tokenOf v) pingProbeTimeoutMs = true
        · simp only [Bool.not_eq_true] at hf
          simp [hf, hping]
        · simp only [Bool.not_eq_true] at hf hping
          simp [hf, hping]

/-- Claim C6: the state-store read returns absent for a missing file and
for any content the JSON decoder rejects; it is a total function, so
malformed content can never raise. -/
theorem read_missing_or_corrupt_absent :
    readDaemonState none = none
      ∧ ∀ s : String, jsonParse s = none → readDaemonState (some s) = none := by
  exact ⟨rfl, fun s h => h⟩

/-- Witness for C6: the truncated content `{` is rejected by the decoder
and read as absent. -/
theorem read_missing_or_corrupt_absent_witness :
    jsonParse "\x7b" = none ∧ readDaemonState (some "\x7b") = none :=
  ⟨rfl, read_missing_or_corrupt_absent.2 "\x7b" rfl⟩

/-- Claim C10: the state-store read checks only that the content parses
as JSON, never the descriptor shape — the empty object parses, carries
neither token nor port, and is still returned as present. -/
theorem read_does_not_validate_shape :
    readDaemonState (some "\x7b\x7d") = some (JVal.obj [])
      ∧ isValidDescriptor (JVal.obj []) = false
      ∧ tokenOf (JVal.obj []) = none ∧ portOf (JVal.obj []) = none := by
  exact ⟨rfl, rfl, rfl, rfl⟩

/-- Claim C9: `IpcClient.destroy` is a no-op — it sends no RPC and leaves
the daemon world (process and state file) exactly as it was, so the
per-command cleanup path, which always destroys its handle, never stops a
running daemon. -/
theorem ipc_destroy_noop (w : DaemonWorld) :
    commandCleanup w = (w, [])
      ∧ (commandCleanup w).1.daemonRunning = w.daemonRunning
      ∧ (commandCleanup w).1.stateFile = w.stateFile
      ∧ ipcDestroy w = (w, []) := by
  exact ⟨rfl, rfl, rfl, rfl⟩

/-! ## Round trip of the serialized descriptor through the decoder -/

theorem digitChar_isDigit (d : Nat) : (digitChar d).isDigit = true := by
  rcases d with _ | _ | _ | _ | _ | _ | _ | _ | _ | d <;> rfl

theorem digitChar_toNat (d : Nat) (h : d < 10) : (digitChar d).toNat - 48 = d := by
  interval_cases d <;> rfl

theorem natToRevChars_digits (n : Nat) :
    ∀ c ∈ natToRevChars n, c.isDigit = true := by
  induction n using Nat.strong_induction_on with
  | _ n ih =>
    unfold natToRevChars
    split
    · intro c hc
      rw [List.mem_singleton.1 hc]
      exact digitChar_isDigit n
    · intro c hc
      rcases List.mem_cons.1 hc with rfl | hc
      · exact digitChar_isDigit _
      · exact ih (n / 10) (Nat.div_lt_self (by omega) (by omega)) c hc

theorem natChars_digits (n : Nat) : ∀ c ∈ natChars n, c.isDigit = true := by
  intro c hc
  exact natToRevChars_digits n c (List.mem_reverse.1 hc)

theorem natChars_ne_nil (n : Nat) : natChars n ≠ [] := by
  unfold natChars natToRevChars
  split <;> simp

theorem digitsVal_append_single (xs : List Char) (c : Char) :
    digitsVal (xs ++ [c]) = digitsVal xs * 10 + (c.toNat - 48) := by
  simp [digitsVal, List.foldl_append]

theorem natChars_ge10 (n : Nat) (h : ¬ n < 10) :
    natChars n = natChars (n / 10) ++ [digitChar (n % 10)] := by
  unfold natChars
  conv_lhs => rw [natToRevChars]
  rw [dif_neg h]
  simp

theorem digitsVal_natChars (n : Nat) : digitsVal (natChars n) = n := by
  induction n using Nat.strong_induction_on with
  | _ n ih =>
    by_cases h : n < 10
    · unfold natChars natToRevChars
      rw [dif_pos h]
      simp [digitsVal, digitChar_toNat n h]
    · rw [natChars_ge10 n h, digitsVal_append_single,
        ih (n / 10) (Nat.div_lt_self (by omega) (by omega)),
        digitChar_toNat (n % 10) (Nat.mod_lt n (by omega))]
      omega

theorem takeDigits_append (ds rest : List Char)
    (hds : ∀ c ∈ ds, c.isDigit = true)
    (hrest : ∀ c cs, rest = c :: cs → c.isDigit = false) :
    takeDigits (ds ++ rest) = (ds, rest) := by
  induction ds with
  | nil =>
    cases hr : rest with
    | nil => rfl
    | cons c cs =>
      have := hrest c cs hr
      simp [takeDigits, this]
  | cons d ds ih =>
    have hd : d.isDigit = true := hds d (List.mem_cons_self d ds)
    have hds' : ∀ c ∈ ds, c.isDigit = true :=
      fun c hc => hds c (List.mem_cons_of_mem d hc)
    simp [takeDigits, hd, ih hds']

theorem parseStrChars_escape (l rest : List Char) :
    parseStrChars (escapeChars l ++ '"' :: rest) = some (l, rest) := by
  induction l with
  | nil =>
    rw [show escapeChars [] ++ '"' :: rest = '"' :: rest from rfl, parseStrChars.eq_def]
    simp
  | cons c l ih =>
    by_cases h1 : c = '"'
    · subst h1
      rw [show escapeChars ('"' :: l) ++ '"' :: rest
          = '\\' :: '"' :: (escapeChars l ++ '"' :: rest) from by
        simp [escapeChars, escapeJChar], parseStrChars.eq_def]
      simp [escChar, ih]
    · by_cases h2 : c = '\\'
      · subst h2
        rw [show escapeChars ('\\' :: l) ++ '"' :: rest
            = '\\' :: '\\' :: (escapeChars l ++ '"' :: rest) from by
          simp [escapeChars, escapeJChar], parseStrChars.eq_def]
        simp [escChar, ih]
      · by_cases h3 : c = '\n'
        · subst h3
          rw [show escapeChars ('\n' :: l) ++ '"' :: rest
              = '\\' :: 'n' :: (escapeChars l ++ '"' :: rest) from by
            simp [escapeChars, escapeJChar], parseStrChars.eq_def]
          simp [escChar, ih]
        · by_cases h4 : c = '\t'
          · subst h4
            rw [show escapeChars ('\t' :: l) ++ '"' :: rest
                = '\\' :: 't' :: (escapeChars l ++ '"' :: rest) from by
              simp [escapeChars, escapeJChar], parseStrChars.eq_def]
            simp [escChar, ih]
          · by_cases h5 : c = '\r'
            · subst h5
              rw [show escapeChars ('\r' :: l) ++ '"' :: rest
                  = '\\' :: 'r' :: (escapeChars l ++ '"' :: rest) from by
                simp [escapeChars, escapeJChar], parseStrChars.eq_def]
              simp [escChar, ih]
            · by_cases h6 : c = Char.ofNat 8
              · subst h6
                rw [show escapeChars (Char.ofNat 8 :: l) ++ '"' :: rest
                    = '\\' :: 'b' :: (escapeChars l ++ '"' :: rest) from by
                  simp [escapeChars, escapeJChar], parseStrChars.eq_def]
                simp [escChar, ih]
              · by_cases h7 : c = Char.ofNat 12
                · subst h7
                  rw [show escapeChars (Char.ofNat 12 :: l) ++ '"' :: rest
                      = '\\' :: 'f' :: (escapeChars l ++ '"' :: rest) from by
                    simp [escapeChars, escapeJChar], parseStrChars.eq_def]
                  simp [escChar, ih]
                · rw [show escapeChars (c :: l) ++ '"' :: rest
                      = c :: (escapeChars l ++ '"' :: rest) from by
                    simp [escapeChars, escapeJChar, h1, h2, h3, h4, h5, h6, h7],
                    parseStrChars.eq_def]
                  simp [h1, h2, ih]

theorem isDigit_ne (c x : Char) (h : c.isDigit = true) (hx : x.isDigit = false) :
    ¬ c = x :=
  fun e => by rw [e, hx] at h; cases h

theorem parseVal_quoteStr (fuel : Nat) (s : String) (rest : List Char) :
    parseVal (fuel + 1) (quoteStr s ++ rest) = some (.str s, rest) := by
  rw [show quoteStr s ++ rest = '"' :: (escapeChars s.data ++ '"' :: rest) from by
    simp [quoteStr]]
  simp [parseVal, parseStrChars_escape]

theorem parseVal_natChars (fuel : Nat) (n : Nat) (rest : List Char)
    (hrest : ∀ c cs, rest = c :: cs → c.isDigit = false) :
    parseVal (fuel + 1) (natChars n ++ rest) = some (.num n, rest) := by
  rcases hnc : natChars n with _ | ⟨c, cs⟩
  · exact absurd hnc (natChars_ne_nil n)
  · have hall : ∀ x ∈ c :: cs, x.isDigit = true := by
      rw [← hnc]; exact natChars_digits n
    have hc : c.isDigit = true := hall c (List.mem_cons_self c cs)
    have h1 : ¬ c = '"' := isDigit_ne c '"' hc (by decide)
    have h2 : ¬ c = '{' := isDigit_ne c '{' hc (by decide)
    have h3 : ¬ c = '[' := isDigit_ne c '[' hc (by decide)
    have h4 : ¬ c = 't' := isDigit_ne c 't' hc (by decide)
    have h5 : ¬ c = 'f' := isDigit_ne c 'f' hc (by decide)
    have h6 : ¬ c = 'n' := isDigit_ne c 'n' hc (by decide)
    have h7 : ¬ c = '-' := isDigit_ne c '-' hc (by decide)
    have ht : takeDigits ((c :: cs) ++ rest) = (c :: cs, rest) :=
      takeDigits_append (c :: cs) rest hall hrest
    rw [List.cons_append]
    simp only [parseVal]
    rw [if_neg h1, if_neg h2, if_neg h3, if_neg h4, if_neg h5, if_neg h6, if_neg h7,
      if_pos hc, ← List.cons_append, ht]
    simp only []
    rw [← hnc, digitsVal_natChars]

theorem parseVal_openBrace (fuel : Nat) (rest : List Char) :
    parseVal (fuel + 1) ('{' :: rest) = parseObjBody fuel rest := by
  simp [parseVal]

theorem parseObjBody_field (fuel : Nat) (k : String) (r2 : List Char) (v : JVal)
    (r3 : List Char) (hv : parseVal fuel r2 = some (v, r3)) :
    parseObjBody (fuel + 1) ('"' :: (escapeChars k.data ++ '"' :: ':' :: r2))
      = parseObjRest fuel [(k, v)] r3 := by
  simp [parseObjBody, parseStrChars_escape, hv]

theorem parseObjRest_field (fuel : Nat) (acc : List (String × JVal)) (k : String)
    (r2 : List Char) (v : JVal) (r3 : List Char)
    (hv : parseVal fuel r2 = some (v, r3)) :
    parseObjRest (fuel + 1) acc (',' :: '"' :: (escapeChars k.data ++ '"' :: ':' :: r2))
      = parseObjRest fuel ((k, v) :: acc) r3 := by
  simp [parseObjRest, parseStrChars_escape, hv]

theorem parseObjRest_close (fuel : Nat) (acc : List (String × JVal)) (rest : List Char) :
    parseObjRest (fuel + 1) acc ('}' :: rest) = some (.obj acc.reverse, rest) := by
  simp [parseObjRest]

theorem parseVal_daemonState (fuel : Nat) (d : DaemonState) :
    parseVal (fuel + 6) (daemonStateChars d) = some (jvalOfDaemonState d, []) := by
  have hcomma : ∀ (x : List Char) (c : Char) (cs : List Char),
      ',' :: x = c :: cs → c.isDigit = false := by
    intro x c cs h
    injection h with h1 _
    subst h1
    rfl
  have hv4 : parseVal (fuel + 1) (quoteStr d.token ++ '}' :: [])
      = some (.str d.token, '}' :: []) :=
    parseVal_quoteStr fuel d.token ('}' :: [])
  have hv3 : parseVal (fuel + 2)
      (quoteStr d.startedAt
        ++ ',' :: '"' :: 't' :: 'o' :: 'k' :: 'e' :: 'n' :: '"' :: ':'
          :: (quoteStr d.token ++ '}' :: []))
      = some (.str d.startedAt,
          ',' :: '"' :: 't' :: 'o' :: 'k' :: 'e' :: 'n' :: '"' :: ':'
            :: (quoteStr d.token ++ '}' :: [])) :=
    parseVal_quoteStr (fuel + 1) d.startedAt _
  have hv2 : parseVal (fuel + 3)
      (natChars d.port
        ++ ',' :: '"' :: 's' :: 't' :: 'a' :: 'r' :: 't' :: 'e' :: 'd' :: 'A' :: 't' :: '"' :: ':'
          :: (quoteStr d.startedAt
            ++ ',' :: '"' :: 't' :: 'o' :: 'k' :: 'e' :: 'n' :: '"' :: ':'
              :: (quoteStr d.token ++ '}' :: [])))
      = some (.num d.port,
          ',' :: '"' :: 's' :: 't' :: 'a' :: 'r' :: 't' :: 'e' :: 'd' :: 'A' :: 't' :: '"' :: ':'
            :: (quoteStr d.startedAt
              ++ ',' :: '"' :: 't' :: 'o' :: 'k' :: 'e' :: 'n' :: '"' :: ':'
                :: (quoteStr d.token ++ '}' :: []))) :=
    parseVal_natChars (fuel + 2) d.port _ (hcomma _)
  have hv1 : parseVal (fuel + 4)
      (natChars d.pid
        ++ ',' :: '"' :: 'p' :: 'o' :: 'r' :: 't' :: '"' :: ':'
          :: (natChars d.port
            ++ ',' :: '"' :: 's' :: 't' :: 'a' :: 'r' :: 't' :: 'e' :: 'd' :: 'A' :: 't' :: '"' :: ':'
              :: (quoteStr d.startedAt
                ++ ',' :: '"' :: 't' :: 'o' :: 'k' :: 'e' :: 'n' :: '"' :: ':'
                  :: (quoteStr d.token ++ '}' :: []))))
      = some (.num d.pid,
          ',' :: '"' :: 'p' :: 'o' :: 'r' :: 't' :: '"' :: ':'
            :: (natChars d.port
              ++ ',' :: '"' :: 's' :: 't' :: 'a' :: 'r' :: 't' :: 'e' :: 'd' :: 'A' :: 't' :: '"' :: ':'
                :: (quoteStr d.startedAt
                  ++ ',' :: '"' :: 't' :: 'o' :: 'k' :: 'e' :: 'n' :: '"' :: ':'
                    :: (quoteStr d.token ++ '}' :: [])))) :=
    parseVal_natChars (fuel + 3) d.pid _ (hcomma _)
  exact (parseVal_openBrace (fuel + 5) _).trans
    ((parseObjBody_field (fuel + 4) "pid" _ _ _ hv1).trans
      ((parseObjRest_field (fuel + 3) _ "port" _ _ _ hv2).trans
        ((parseObjRest_field (fuel + 2) _ "startedAt" _ _ _ hv3).trans
          ((parseObjRest_field (fuel + 1) _ "token" _ _ _ hv4).trans
            (parseObjRest_close fuel _ [])))))

/-- Claim C5: writing any descriptor through the state store and reading
it back yields exactly the JSON object that was written — the pid, port,
startedAt and token fields survive the serialize/parse round trip. -/
theorem write_read_roundtrip (d : DaemonState) :
    readDaemonState (some (writeDaemonState d)) = some (jvalOfDaemonState d) := by
  show jsonParse (writeDaemonState d) = some (jvalOfDaemonState d)
  obtain ⟨t, ht⟩ : ∃ t, daemonStateChars d = '{' :: '"' :: 'p' :: 'i' :: 'd' :: '"' :: ':' :: t :=
    ⟨_, rfl⟩
  obtain ⟨k, hk⟩ : ∃ k, (writeDaemonState d).length + 1 = k + 6 := by
    refine ⟨t.length + 2, ?_⟩
    have h1 : (writeDaemonState d).length = (daemonStateChars d).length := rfl
    rw [h1, ht]
    simp only [List.length_cons]
  unfold jsonParse
  rw [hk, show (writeDaemonState d).data = daemonStateChars d from rfl]
  rw [parseVal_daemonState k d]

/-! ## Claims about the client-side date revival -/

theorem reviveList_eq_map (xs : List JSVal) : reviveList xs = xs.map reviveDates := by
  induction xs with
  | nil => rfl
  | cons v vs ih => simp [reviveList, ih]

theorem reviveObj_eq_map (kvs : List (String × JSVal)) :
    reviveObj kvs = kvs.map fun kv => (kv.1, reviveDates kv.2) := by
  induction kvs with
  | nil => rfl
  | cons kv kvs ih =>
    rcases kv with ⟨k, v⟩
    simp [reviveObj, ih]

/-- Counterexample to claim C8 as stated: `2024-13-01T00:00:00` matches
the ISO pattern, yet revival returns it unchanged as a string — the
`Number.isNaN` guard keeps pattern-matching strings whose Date parse is
invalid (month 13) as strings, so not every matching string becomes a
Date. -/
theorem revive_matching_string_not_converted :
    isoMatch ("2024-13-01T00:00:00".data) = true
      ∧ reviveDates (.vstr "2024-13-01T00:00:00") = .vstr "2024-13-01T00:00:00" :=
  ⟨rfl, rfl⟩

/-- Claim C8 (amended): revival recurses uniformly through arrays and
objects and leaves null, booleans and numbers unchanged; a string
matching the ISO pattern becomes a Date exactly when the platform date
parse yields a valid time value, while matching strings with an invalid
parse and all non-matching strings are returned unchanged. -/
theorem revive_dates_amended :
    (∀ s : String, isoMatch s.data = true → jsDateValid s.data = true →
        reviveDates (.vstr s) = .vdate s)
      ∧ (∀ s : String, isoMatch s.data = true → jsDateValid s.data = false →
        reviveDates (.vstr s) = .vstr s)
      ∧ (∀ s : String, isoMatch s.data = false →
        reviveDates (.vstr s) = .vstr s)
      ∧ (∀ xs : List JSVal, reviveDates (.varr xs) = .varr (xs.map reviveDates))
      ∧ (∀ kvs : List (String × JSVal),
        reviveDates (.vobj kvs) = .vobj (kvs.map fun kv => (kv.1, reviveDates kv.2)))
      ∧ reviveDates .vnull = .vnull
      ∧ (∀ b, reviveDates (.vbool b) = .vbool b)
      ∧ (∀ n, reviveDates (.vnum n) = .vnum n) := by
  refine ⟨?_, ?_, ?_, ?_, ?_, rfl, fun b => rfl, fun n => rfl⟩
  · intro s h1 h2
    simp [reviveDates, h1, h2]
  · intro s h1 h2
    simp [reviveDates, h1, h2]
  · intro s h1
    simp [reviveDates, h1]
  · intro xs
    simp [reviveDates, reviveList_eq_map]
  · intro kvs
    simp [reviveDates, reviveObj_eq_map]

end WhatsappCli
